import Mathlib

/-!
Verification of `docker_download_imgs.py`, a script that creates a local
directory `imgs` and downloads a fixed list of asset files from
`https://monstermash.zone/imgs/` into it, one blocking fetch per file in
list order, aborting at the first failure.

The embedding models the filesystem as an explicit state (a set of
existing directories plus an association of file paths to byte contents),
the network as a function from URLs to optional response bodies, and the
script as a function from these environments to a final state paired with
an optional error.  Library calls (`os.makedirs`, `os.path.join`,
`urllib.request.urlretrieve`) are modelled with their documented CPython
semantics at the call sites the script uses.
-/

/-- File contents as a sequence of bytes. -/
abbrev Bytes := List Nat

/-- The network environment: maps a URL to `some body` when a fetch of that
URL succeeds, and to `none` when the fetch fails (network error or
non-success HTTP status such as 404). -/
abbrev Network := String → Option Bytes

/-- Filesystem state: the paths that exist as directories, and an
association of file paths to their byte contents. -/
structure FS where
  dirs : List String
  entries : List (String × Bytes)
deriving DecidableEq

/-- Look up the contents of the file at path `p`, if one exists. -/
def lookupB : List (String × Bytes) → String → Option Bytes
  | [], _ => none
  | (q, b) :: es, p => if q = p then some b else lookupB es p

/-- Remove every entry whose path is `p`. -/
def eraseKey : List (String × Bytes) → String → List (String × Bytes)
  | [], _ => []
  | (q, b) :: es, p => if q = p then eraseKey es p else (q, b) :: eraseKey es p

/-- Write bytes `b` to path `p`, truncating/overwriting any existing file
of that name. -/
def FS.writeFile (fs : FS) (p : String) (b : Bytes) : FS :=
  { fs with entries := (p, b) :: eraseKey fs.entries p }

/-- Whether path `p` exists in the filesystem, as a directory or a file. -/
def FS.pathExists (fs : FS) (p : String) : Bool :=
  fs.dirs.contains p || (lookupB fs.entries p).isSome

/-- Errors the script can signal: directory creation failure
(`DirectoryCreationError`) or a failed fetch (`FetchError`). -/
inductive Err where
  | dirCreation
  | fetch
deriving DecidableEq

/-- Models `os.path.join(d, f)` for a relative component `f` (the only way
the script calls it): the concatenation `d ++ "/" ++ f`. -/
def pathJoin (d f : String) : String := d ++ "/" ++ f

/-- Models `os.mkdir(p)` as used with `exist_ok=True` semantics inside
`os.makedirs` for parent components: succeeds without change if `p` is
already a directory, fails if `p` exists as a file, creates `p` otherwise. -/
def mkdirOk (fs : FS) (p : String) : FS × Option Err :=
  if fs.dirs.contains p then (fs, none)
  else if (lookupB fs.entries p).isSome then (fs, some Err.dirCreation)
  else ({ fs with dirs := p :: fs.dirs }, none)

/-- Models a strict `os.mkdir(p)`: fails with `FileExistsError` if `p`
already exists (as a directory or as a file), creates it otherwise. -/
def mkdirStrict (fs : FS) (p : String) : FS × Option Err :=
  if fs.pathExists p then (fs, some Err.dirCreation)
  else ({ fs with dirs := p :: fs.dirs }, none)

/-- Create each path of a list in order with `mkdirOk`, stopping at the
first error. -/
def makedirsList (fs : FS) : List String → FS × Option Err
  | [] => (fs, none)
  | p :: ps =>
    match mkdirOk fs p with
    | (fs1, some e) => (fs1, some e)
    | (fs1, none) => makedirsList fs1 ps

/-- Split a character list at each occurrence of `sep` (an executable
rendering of splitting a path string on the separator). -/
def splitChars (sep : Char) : List Char → List (List Char)
  | [] => [[]]
  | c :: cs =>
    if c = sep then [] :: splitChars sep cs
    else
      match splitChars sep cs with
      | [] => [[c]]
      | g :: gs => (c :: g) :: gs

/-- The components of a path: the maximal separator-free pieces of `p`.
For `"imgs"` this is `["imgs"]`; for `"a/b"` it is `["a", "b"]`. -/
def pathComponents (p : String) : List String :=
  (splitChars '/' p.data).map String.mk

/-- Join path components with the separator. -/
def joinPath : List String → String
  | [] => ""
  | [c] => c
  | c :: cs => c ++ "/" ++ joinPath cs

/-- The proper ancestor paths of `p`, shortest first: for `"a/b/c"` these
are `"a"` and `"a/b"`; for a single-component path such as `"imgs"` the
list is empty. -/
def properAncestors (p : String) : List String :=
  let cs := pathComponents p
  ((List.range cs.length).drop 1).map (fun k => joinPath (cs.take k))

/-- Models `os.makedirs(p)` (default `exist_ok=False`): recursively create
the missing ancestors of `p`, then create `p` itself, failing if `p`
already exists. -/
def makedirs (fs : FS) (p : String) : FS × Option Err :=
  match makedirsList fs (properAncestors p) with
  | (fs1, some e) => (fs1, some e)
  | (fs1, none) => mkdirStrict fs1 p

/-- State of a run: the filesystem plus the log of URLs requested so far,
in order. -/
structure RunState where
  fs : FS
  requests : List String
deriving DecidableEq

/-- Models `urllib.request.urlretrieve(url, dest)` against network `net`:
the request is issued (logged), then either the fetch fails fatally or the
whole response body is written to `dest`. -/
def urlretrieve (net : Network) (s : RunState) (url dest : String) : RunState × Option Err :=
  let s1 : RunState := { s with requests := s.requests ++ [url] }
  match net url with
  | none => (s1, some Err.fetch)
  | some body => ({ s1 with fs := s1.fs.writeFile dest body }, none)

/-- The download loop of the script: for each filename `f` in order,
fetch `base ++ f` and write it to `dest/f`, aborting at the first
failure. -/
def fetchList (net : Network) (base dest : String) : List String → RunState → RunState × Option Err
  | [], s => (s, none)
  | f :: rest, s =>
    match urlretrieve net s (base ++ f) (pathJoin dest f) with
    | (s1, some e) => (s1, some e)
    | (s1, none) => fetchList net base dest rest s1

/-- The whole script, generalised over its (hardcoded) configuration:
create the destination directory, then download every file of the
manifest in order.  Any error aborts the run; the state reached so far is
kept, as the script's effects persist when an exception terminates it. -/
def fetchAll (net : Network) (fs0 : FS) (base : String) (manifest : List String)
    (dest : String) : RunState × Option Err :=
  match makedirs fs0 dest with
  | (fs1, some e) => ({ fs := fs1, requests := [] }, some e)
  | (fs1, none) => fetchList net base dest manifest { fs := fs1, requests := [] }

/-- The hardcoded base URL (`website` in the source). -/
def website : String := "https://monstermash.zone/imgs/"

/-- The hardcoded manifest (`files` in the source), in source order. -/
def files : List String := [
  "example-antelope.jpg",
  "example-bird.jpg",
  "example-box.jpg",
  "example-dino.jpg",
  "example-dog.jpg",
  "example-heart.jpg",
  "example-chihuahua.jpg",
  "example-tree.jpg",
  "mouse_Left.jpg",
  "mouse_Wheel.jpg",
  "mouse_Right.jpg",
  "loading.jpg",
  "tutorial-mode1.mov",
  "tutorial-mode2.mov",
  "tutorial-mode3.mov",
  "help-drawmode.mov",
  "help-inflatemode.mov",
  "help-animatemode.mov",
  "help-redrawmode.mov",
  "icon_pause.svg",
  "icon_play.svg",
  "icon_new_ss2_white.svg",
  "icon_save_ss2_white.svg",
  "icon_open_ss2_white.svg",
  "rotate-gizmo.svg",
  "icon_trash_ss2_white.svg",
  "tutorial-play.svg",
  "key-box.svg",
  "key-rect.svg",
  "key-rectBig.svg"
]

/-- The script as run: `os.makedirs("imgs")` followed by the download loop
over `files` with base URL `website`. -/
def run (net : Network) (fs0 : FS) : RunState × Option Err :=
  fetchAll net fs0 website files "imgs"

/-- The sequence of target URLs the script constructs, in order. -/
def targetUrls : List String := files.map (fun f => website ++ f)

/-! ### Association-list and path lemmas -/

theorem lookupB_eraseKey (es : List (String × Bytes)) (p q : String) (h : q ≠ p) :
    lookupB (eraseKey es p) q = lookupB es q := by
  induction es with
  | nil => rfl
  | cons e es ih =>
    obtain ⟨r, b⟩ := e
    by_cases hr : r = p
    · subst hr
      simp [eraseKey, lookupB, Ne.symm h, ih]
    · simp [eraseKey, hr, lookupB, ih]

theorem eraseKey_of_lookupB_none (es : List (String × Bytes)) (p : String)
    (h : lookupB es p = none) : eraseKey es p = es := by
  induction es with
  | nil => rfl
  | cons e es ih =>
    obtain ⟨r, b⟩ := e
    by_cases hr : r = p
    · simp [lookupB, hr] at h
    · simp [lookupB, hr] at h
      simp [eraseKey, hr, ih h]

theorem lookupB_writeFile_same (fs : FS) (p : String) (b : Bytes) :
    lookupB (fs.writeFile p b).entries p = some b := by
  simp [FS.writeFile, lookupB]

theorem lookupB_writeFile_ne (fs : FS) (p q : String) (b : Bytes) (h : q ≠ p) :
    lookupB (fs.writeFile p b).entries q = lookupB fs.entries q := by
  simp [FS.writeFile, lookupB, Ne.symm h, lookupB_eraseKey fs.entries p q h]

theorem lookupB_writeFile_isSome (fs : FS) (p q : String) (b : Bytes) :
    (lookupB (fs.writeFile p b).entries q).isSome
      ↔ q = p ∨ (lookupB fs.entries q).isSome := by
  by_cases h : q = p
  · subst h; simp [lookupB_writeFile_same]
  · simp [lookupB_writeFile_ne fs p q b h, h]

theorem length_writeFile (fs : FS) (p : String) (b : Bytes)
    (h : lookupB fs.entries p = none) :
    (fs.writeFile p b).entries.length = fs.entries.length + 1 := by
  simp [FS.writeFile, eraseKey_of_lookupB_none fs.entries p h]

theorem dirs_writeFile (fs : FS) (p : String) (b : Bytes) :
    (fs.writeFile p b).dirs = fs.dirs := rfl

theorem pathJoin_inj (d : String) {f g : String} (h : pathJoin d f = pathJoin d g) :
    f = g := by
  have h2 := congrArg String.data h
  simp only [pathJoin, String.data_append, List.append_assoc] at h2
  have h3 := List.append_cancel_left h2
  have h4 := List.append_cancel_left h3
  cases f; cases g; exact congrArg String.mk h4

/-! ### Step lemmas for the download loop -/

theorem urlretrieve_of_none (net : Network) (s : RunState) (url dst : String)
    (h : net url = none) :
    urlretrieve net s url dst = ({ s with requests := s.requests ++ [url] }, some Err.fetch) := by
  simp [urlretrieve, h]

theorem urlretrieve_of_some (net : Network) (s : RunState) (url dst : String) (body : Bytes)
    (h : net url = some body) :
    urlretrieve net s url dst
      = ({ fs := s.fs.writeFile dst body, requests := s.requests ++ [url] }, none) := by
  simp [urlretrieve, h]

theorem fetchList_cons_of_none (net : Network) (base dest f : String)
    (rest : List String) (s : RunState) (h : net (base ++ f) = none) :
    fetchList net base dest (f :: rest) s
      = ({ s with requests := s.requests ++ [base ++ f] }, some Err.fetch) := by
  simp [fetchList, urlretrieve_of_none net s _ _ h]

theorem fetchList_cons_of_some (net : Network) (base dest f : String)
    (rest : List String) (s : RunState) (body : Bytes) (h : net (base ++ f) = some body) :
    fetchList net base dest (f :: rest) s
      = fetchList net base dest rest
          { fs := s.fs.writeFile (pathJoin dest f) body,
            requests := s.requests ++ [base ++ f] } := by
  simp [fetchList, urlretrieve_of_some net s _ _ body h]

/-! ### Invariants of the download loop -/

theorem fetchList_dirs (net : Network) (base dest : String) (l : List String) (s : RunState) :
    ((fetchList net base dest l s).1).fs.dirs = s.fs.dirs := by
  induction l generalizing s with
  | nil => rfl
  | cons f rest ih =>
    cases hnet : net (base ++ f) with
    | none => simp [fetchList_cons_of_none net base dest f rest s hnet]
    | some body =>
      rw [fetchList_cons_of_some net base dest f rest s body hnet, ih]
      rfl

theorem fetchList_requests_grow (net : Network) (base dest : String)
    (l : List String) (s : RunState) :
    ∃ t u, ((fetchList net base dest l s).1).requests = s.requests ++ t
      ∧ t ++ u = l.map (fun f => base ++ f) := by
  induction l generalizing s with
  | nil => exact ⟨[], [], by simp [fetchList]⟩
  | cons f rest ih =>
    cases hnet : net (base ++ f) with
    | none =>
      exact ⟨[base ++ f], rest.map (fun g => base ++ g),
        by simp [fetchList_cons_of_none net base dest f rest s hnet]⟩
    | some body =>
      rw [fetchList_cons_of_some net base dest f rest s body hnet]
      obtain ⟨t, u, ht, hu⟩ := ih
        { fs := s.fs.writeFile (pathJoin dest f) body,
          requests := s.requests ++ [base ++ f] }
      exact ⟨(base ++ f) :: t, u, by simpa [List.append_assoc] using ht, by simp [hu]⟩

theorem fetchList_requests_of_ok (net : Network) (base dest : String)
    (l : List String) (s s' : RunState)
    (h : fetchList net base dest l s = (s', none)) :
    s'.requests = s.requests ++ l.map (fun f => base ++ f) := by
  induction l generalizing s with
  | nil =>
    simp [fetchList] at h
    simp [← h]
  | cons f rest ih =>
    cases hnet : net (base ++ f) with
    | none => simp [fetchList_cons_of_none net base dest f rest s hnet] at h
    | some body =>
      rw [fetchList_cons_of_some net base dest f rest s body hnet] at h
      simpa [List.append_assoc] using ih _ h

theorem fetchList_lookup_iff_of_ok (net : Network) (base dest : String)
    (l : List String) (s s' : RunState)
    (h : fetchList net base dest l s = (s', none)) (p : String) :
    (lookupB s'.fs.entries p).isSome
      ↔ (lookupB s.fs.entries p).isSome ∨ ∃ f ∈ l, p = pathJoin dest f := by
  induction l generalizing s with
  | nil =>
    simp [fetchList] at h
    simp [← h]
  | cons f rest ih =>
    cases hnet : net (base ++ f) with
    | none => simp [fetchList_cons_of_none net base dest f rest s hnet] at h
    | some body =>
      rw [fetchList_cons_of_some net base dest f rest s body hnet] at h
      rw [ih _ h]
      simp only [lookupB_writeFile_isSome, List.mem_cons, exists_eq_or_imp]
      tauto

theorem fetchList_lookup_untouched (net : Network) (base dest : String)
    (l : List String) (s : RunState) (p : String)
    (h : ∀ f ∈ l, pathJoin dest f ≠ p) :
    lookupB ((fetchList net base dest l s).1).fs.entries p = lookupB s.fs.entries p := by
  induction l generalizing s with
  | nil => rfl
  | cons f rest ih =>
    cases hnet : net (base ++ f) with
    | none => simp [fetchList_cons_of_none net base dest f rest s hnet]
    | some body =>
      rw [fetchList_cons_of_some net base dest f rest s body hnet]
      rw [ih _ (fun g hg => h g (List.mem_cons_of_mem f hg))]
      exact lookupB_writeFile_ne s.fs (pathJoin dest f) p body
        (fun hpq => h f (List.mem_cons_self f rest) hpq.symm)

theorem fetchList_lookup_of_ok (net : Network) (base dest : String)
    (l : List String) (s s' : RunState)
    (h : fetchList net base dest l s = (s', none)) (f : String) (hf : f ∈ l) :
    lookupB s'.fs.entries (pathJoin dest f) = net (base ++ f) := by
  induction l generalizing s with
  | nil => simp at hf
  | cons g rest ih =>
    cases hnet : net (base ++ g) with
    | none => simp [fetchList_cons_of_none net base dest g rest s hnet] at h
    | some body =>
      rw [fetchList_cons_of_some net base dest g rest s body hnet] at h
      by_cases hmem : f ∈ rest
      · exact ih _ h hmem
      · have hfg : f = g := by
          rcases List.mem_cons.mp hf with h1 | h1
          · exact h1
          · exact absurd h1 hmem
        subst hfg
        have huntouched : ∀ g' ∈ rest, pathJoin dest g' ≠ pathJoin dest f := by
          intro g' hg' heq
          exact hmem (by rwa [pathJoin_inj dest heq] at hg')
        have := fetchList_lookup_untouched net base dest rest
          { fs := s.fs.writeFile (pathJoin dest f) body,
            requests := s.requests ++ [base ++ f] } (pathJoin dest f) huntouched
        rw [h] at this
        rw [this, hnet]
        exact lookupB_writeFile_same s.fs (pathJoin dest f) body

theorem fetchList_keys_bounded (net : Network) (base dest : String)
    (l : List String) (s : RunState) (p : String)
    (h : (lookupB ((fetchList net base dest l s).1).fs.entries p).isSome) :
    (lookupB s.fs.entries p).isSome ∨ ∃ f ∈ l, p = pathJoin dest f := by
  induction l generalizing s with
  | nil => exact Or.inl h
  | cons f rest ih =>
    cases hnet : net (base ++ f) with
    | none =>
      rw [fetchList_cons_of_none net base dest f rest s hnet] at h
      exact Or.inl h
    | some body =>
      rw [fetchList_cons_of_some net base dest f rest s body hnet] at h
      rcases ih _ h with h1 | h1
      · rcases (lookupB_writeFile_isSome s.fs (pathJoin dest f) p body).mp h1 with h2 | h2
        · exact Or.inr ⟨f, List.mem_cons_self f rest, h2⟩
        · exact Or.inl h2
      · obtain ⟨g, hg, hpg⟩ := h1
        exact Or.inr ⟨g, List.mem_cons_of_mem f hg, hpg⟩

theorem fetchList_length_of_ok (net : Network) (base dest : String)
    (l : List String) (s s' : RunState)
    (hfree : ∀ f ∈ l, lookupB s.fs.entries (pathJoin dest f) = none)
    (hnd : l.Nodup)
    (h : fetchList net base dest l s = (s', none)) :
    s'.fs.entries.length = s.fs.entries.length + l.length := by
  induction l generalizing s with
  | nil =>
    simp [fetchList] at h
    simp [← h]
  | cons g rest ih =>
    cases hnet : net (base ++ g) with
    | none => simp [fetchList_cons_of_none net base dest g rest s hnet] at h
    | some body =>
      rw [fetchList_cons_of_some net base dest g rest s body hnet] at h
      have hnotin : g ∉ rest := (List.nodup_cons.mp hnd).1
      have hfree' : ∀ f ∈ rest,
          lookupB (s.fs.writeFile (pathJoin dest g) body).entries (pathJoin dest f) = none := by
        intro f hf
        have hne : pathJoin dest f ≠ pathJoin dest g := by
          intro heq
          exact hnotin (by rwa [pathJoin_inj dest heq] at hf)
        rw [lookupB_writeFile_ne s.fs (pathJoin dest g) (pathJoin dest f) body hne]
        exact hfree f (List.mem_cons_of_mem g hf)
      have := ih _ hfree' (List.nodup_cons.mp hnd).2 h
      rw [this, length_writeFile s.fs (pathJoin dest g) body
        (hfree g (List.mem_cons_self g rest))]
      simp [Nat.add_assoc, Nat.add_comm 1]

/-! ### Invariants of directory creation -/

theorem mkdirOk_of_dir (fs : FS) (p : String) (h : p ∈ fs.dirs) :
    mkdirOk fs p = (fs, none) := by
  simp [mkdirOk, h]

theorem mkdirOk_of_file (fs : FS) (p : String) (hd : p ∉ fs.dirs)
    (hf : (lookupB fs.entries p).isSome) :
    mkdirOk fs p = (fs, some Err.dirCreation) := by
  simp [mkdirOk, hd, hf]

theorem mkdirOk_of_free (fs : FS) (p : String) (hd : p ∉ fs.dirs)
    (hf : ¬ (lookupB fs.entries p).isSome) :
    mkdirOk fs p = ({ fs with dirs := p :: fs.dirs }, none) := by
  simp [mkdirOk, hd, hf]

theorem makedirsList_entries (l : List String) (fs : FS) :
    ((makedirsList fs l).1).entries = fs.entries := by
  induction l generalizing fs with
  | nil => rfl
  | cons p ps ih =>
    by_cases hd : p ∈ fs.dirs
    · simp only [makedirsList, mkdirOk_of_dir fs p hd]
      exact ih fs
    · by_cases hf : (lookupB fs.entries p).isSome
      · simp only [makedirsList, mkdirOk_of_file fs p hd hf]
      · simp only [makedirsList, mkdirOk_of_free fs p hd hf]
        exact ih _

theorem makedirsList_err (l : List String) (fs : FS) (e : Err)
    (h : (makedirsList fs l).2 = some e) : e = Err.dirCreation := by
  induction l generalizing fs with
  | nil => simp [makedirsList] at h
  | cons p ps ih =>
    by_cases hd : p ∈ fs.dirs
    · rw [show makedirsList fs (p :: ps) = makedirsList fs ps by
        simp only [makedirsList, mkdirOk_of_dir fs p hd]] at h
      exact ih _ h
    · by_cases hf : (lookupB fs.entries p).isSome
      · rw [show makedirsList fs (p :: ps) = (fs, some Err.dirCreation) by
          simp only [makedirsList, mkdirOk_of_file fs p hd hf]] at h
        simp at h
        exact h.symm
      · rw [show makedirsList fs (p :: ps)
            = makedirsList { fs with dirs := p :: fs.dirs } ps by
          simp only [makedirsList, mkdirOk_of_free fs p hd hf]] at h
        exact ih _ h

theorem makedirsList_dirs_mono (l : List String) (fs : FS) (q : String)
    (h : q ∈ fs.dirs) : q ∈ ((makedirsList fs l).1).dirs := by
  induction l generalizing fs with
  | nil => exact h
  | cons p ps ih =>
    by_cases hd : p ∈ fs.dirs
    · simp only [makedirsList, mkdirOk_of_dir fs p hd]
      exact ih fs h
    · by_cases hf : (lookupB fs.entries p).isSome
      · simp only [makedirsList, mkdirOk_of_file fs p hd hf]
        exact h
      · simp only [makedirsList, mkdirOk_of_free fs p hd hf]
        exact ih _ (List.mem_cons_of_mem p h)

theorem makedirs_entries (fs : FS) (p : String) :
    ((makedirs fs p).1).entries = fs.entries := by
  unfold makedirs
  rcases hml : makedirsList fs (properAncestors p) with ⟨fsA, e?⟩
  have hent : fsA.entries = fs.entries := by
    have h0 := makedirsList_entries (properAncestors p) fs
    rw [hml] at h0
    exact h0
  cases e? with
  | some e => simpa using hent
  | none =>
    by_cases hex : fsA.pathExists p <;> simp [mkdirStrict, hex, hent]

theorem makedirs_err (fs : FS) (p : String) (e : Err)
    (h : (makedirs fs p).2 = some e) : e = Err.dirCreation := by
  unfold makedirs at h
  rcases hml : makedirsList fs (properAncestors p) with ⟨fsA, e?⟩
  rw [hml] at h
  cases e? with
  | some e2 =>
    simp at h
    have h2 : e2 = Err.dirCreation :=
      makedirsList_err (properAncestors p) fs e2 (by rw [hml])
    rw [← h, h2]
  | none =>
    by_cases hex : fsA.pathExists p <;> simp [mkdirStrict, hex] at h
    exact h.symm

theorem makedirs_ok (fs fs1 : FS) (p : String)
    (h : makedirs fs p = (fs1, none)) :
    p ∈ fs1.dirs ∧ p ∉ fs.dirs ∧ fs1.entries = fs.entries := by
  unfold makedirs at h
  rcases hml : makedirsList fs (properAncestors p) with ⟨fsA, e?⟩
  rw [hml] at h
  cases e? with
  | some e2 => simp at h
  | none =>
    by_cases hex : fsA.pathExists p
    · simp [mkdirStrict, hex] at h
    · simp only [mkdirStrict, hex, Bool.false_eq_true, if_false, Prod.mk.injEq] at h
      have hent : fsA.entries = fs.entries := by
        have h0 := makedirsList_entries (properAncestors p) fs
        rw [hml] at h0
        exact h0
      obtain ⟨hfs1, -⟩ := h
      constructor
      · rw [← hfs1]
        exact List.mem_cons_self p fsA.dirs
      constructor
      · intro hmem
        have hA : p ∈ fsA.dirs := by
          have h0 := makedirsList_dirs_mono (properAncestors p) fs p hmem
          rw [hml] at h0
          exact h0
        have hpe : fsA.pathExists p := by
          simp [FS.pathExists]
          exact Or.inl hA
        exact hex hpe
      · rw [← hfs1, hent]

theorem makedirs_fails_of_dir (fs : FS) (p : String) (h : p ∈ fs.dirs) :
    (makedirs fs p).2 = some Err.dirCreation := by
  unfold makedirs
  rcases hml : makedirsList fs (properAncestors p) with ⟨fsA, e?⟩
  cases e? with
  | some e2 =>
    have h2 : e2 = Err.dirCreation :=
      makedirsList_err (properAncestors p) fs e2 (by rw [hml])
    simp [h2]
  | none =>
    have hA : p ∈ fsA.dirs := by
      have h0 := makedirsList_dirs_mono (properAncestors p) fs p h
      rw [hml] at h0
      exact h0
    have hpe : fsA.pathExists p := by
      simp [FS.pathExists]
      exact Or.inl hA
    simp [mkdirStrict, hpe]

/-! ### Unfolding the whole run -/

theorem fetchAll_of_mkdir_err (net : Network) (fs0 fs1 : FS) (base : String)
    (manifest : List String) (dest : String) (e : Err)
    (h : makedirs fs0 dest = (fs1, some e)) :
    fetchAll net fs0 base manifest dest = ({ fs := fs1, requests := [] }, some e) := by
  simp [fetchAll, h]

theorem fetchAll_of_mkdir_ok (net : Network) (fs0 fs1 : FS) (base : String)
    (manifest : List String) (dest : String)
    (h : makedirs fs0 dest = (fs1, none)) :
    fetchAll net fs0 base manifest dest
      = fetchList net base dest manifest { fs := fs1, requests := [] } := by
  simp [fetchAll, h]

/-! ### Abort behaviour of the loop -/

theorem fetchList_abort (net : Network) (base dest : String)
    (pre : List String) (bad : String) (post : List String) (s : RunState)
    (hpre : ∀ f ∈ pre, (net (base ++ f)).isSome)
    (hbad : net (base ++ bad) = none) :
    (fetchList net base dest (pre ++ bad :: post) s).2 = some Err.fetch ∧
    ((fetchList net base dest (pre ++ bad :: post) s).1).requests
      = s.requests ++ (pre.map (fun f => base ++ f) ++ [base ++ bad]) ∧
    ∀ p, (lookupB ((fetchList net base dest (pre ++ bad :: post) s).1).fs.entries p).isSome
      ↔ (lookupB s.fs.entries p).isSome ∨ ∃ f ∈ pre, p = pathJoin dest f := by
  induction pre generalizing s with
  | nil =>
    rw [List.nil_append, fetchList_cons_of_none net base dest bad post s hbad]
    simp
  | cons g pre ih =>
    obtain ⟨body, hg⟩ := Option.isSome_iff_exists.mp (hpre g (List.mem_cons_self g pre))
    rw [List.cons_append, fetchList_cons_of_some net base dest g (pre ++ bad :: post) s body hg]
    obtain ⟨h1, h2, h3⟩ := ih
      { fs := s.fs.writeFile (pathJoin dest g) body, requests := s.requests ++ [base ++ g] }
      (fun f hf => hpre f (List.mem_cons_of_mem g hf))
    refine ⟨h1, by simpa [List.append_assoc] using h2, fun p => ?_⟩
    rw [h3 p]
    simp only [lookupB_writeFile_isSome, List.mem_cons, exists_eq_or_imp]
    tauto

/-! ### The claims -/

/-- C1: if the fetch of a manifest entry fails, the run aborts with a fetch
error: the requests issued are exactly the successful prefix plus the
failing one (nothing after it is fetched), and the files present in the
destination are exactly those of the manifest prefix preceding the failing
entry. -/
theorem claim_C1 (net : Network) (fs0 fs1 : FS) (base dest : String)
    (pre : List String) (bad : String) (post : List String)
    (hdir : makedirs fs0 dest = (fs1, none))
    (hfresh : fs0.entries = [])
    (hpre : ∀ f ∈ pre, (net (base ++ f)).isSome)
    (hbad : net (base ++ bad) = none) :
    (fetchAll net fs0 base (pre ++ bad :: post) dest).2 = some Err.fetch ∧
    ((fetchAll net fs0 base (pre ++ bad :: post) dest).1).requests
      = pre.map (fun f => base ++ f) ++ [base ++ bad] ∧
    ∀ p, (lookupB ((fetchAll net fs0 base (pre ++ bad :: post) dest).1).fs.entries p).isSome
      ↔ ∃ f ∈ pre, p = pathJoin dest f := by
  rw [fetchAll_of_mkdir_ok net fs0 fs1 base (pre ++ bad :: post) dest hdir]
  have hent : fs1.entries = [] := by
    rw [(makedirs_ok fs0 fs1 dest hdir).2.2, hfresh]
  obtain ⟨h1, h2, h3⟩ := fetchList_abort net base dest pre bad post ⟨fs1, []⟩ hpre hbad
  refine ⟨h1, by simpa using h2, fun p => ?_⟩
  rw [h3 p]
  simp [hent, lookupB]

/-- Network used by witnesses: every URL succeeds with body `[7]`. -/
def netAllOk : Network := fun _ => some [7]

/-- Network used by witnesses: every URL succeeds with body `[8]`. -/
def netAllOk2 : Network := fun _ => some [8]

/-- Network used by witnesses: the URL `"u/b"` fails, everything else
succeeds. -/
def netFailB : Network := fun u => if u = "u/b" then none else some [7]

/-- Witness for C1 at a concrete run: manifest `["a","b","c"]`, fetch of
`"b"` failing. -/
theorem claim_C1_witness :
    (fetchAll netFailB ⟨[], []⟩ "u/" (["a"] ++ "b" :: ["c"]) "d").2 = some Err.fetch ∧
    ((fetchAll netFailB ⟨[], []⟩ "u/" (["a"] ++ "b" :: ["c"]) "d").1).requests
      = ["a"].map (fun f => "u/" ++ f) ++ ["u/" ++ "b"] ∧
    ∀ p, (lookupB ((fetchAll netFailB ⟨[], []⟩ "u/" (["a"] ++ "b" :: ["c"]) "d").1).fs.entries p).isSome
      ↔ ∃ f ∈ ["a"], p = pathJoin "d" f :=
  claim_C1 netFailB ⟨[], []⟩ ⟨["d"], []⟩ "u/" "d" ["a"] "b" ["c"]
    (by decide) rfl (by decide) (by decide)

/-- C2: after a successful run on a fresh destination, the destination
holds exactly one file per manifest entry, at path `dest/f`, whose bytes
are the response body the network served for `base ++ f`. -/
theorem claim_C2 (net : Network) (fs0 : FS) (base : String) (manifest : List String)
    (dest : String) (s : RunState)
    (_hne : manifest ≠ [])
    (hfresh : fs0.entries = [])
    (hrun : fetchAll net fs0 base manifest dest = (s, none)) :
    (∀ p, (lookupB s.fs.entries p).isSome ↔ ∃ f ∈ manifest, p = pathJoin dest f) ∧
    ∀ f ∈ manifest, lookupB s.fs.entries (pathJoin dest f) = net (base ++ f) := by
  rcases hm : makedirs fs0 dest with ⟨fs1, e?⟩
  cases e? with
  | some e =>
    rw [fetchAll_of_mkdir_err net fs0 fs1 base manifest dest e hm] at hrun
    simp at hrun
  | none =>
    rw [fetchAll_of_mkdir_ok net fs0 fs1 base manifest dest hm] at hrun
    have hent : fs1.entries = [] := by
      rw [(makedirs_ok fs0 fs1 dest hm).2.2, hfresh]
    constructor
    · intro p
      rw [fetchList_lookup_iff_of_ok net base dest manifest ⟨fs1, []⟩ s hrun p]
      simp [hent, lookupB]
    · intro f hf
      exact fetchList_lookup_of_ok net base dest manifest ⟨fs1, []⟩ s hrun f hf

/-- Witness for C2 at a concrete run: manifest `["x.svg"]` against a
network serving every URL. -/
theorem claim_C2_witness :
    (∀ p, (lookupB ((fetchAll netAllOk ⟨[], []⟩ "u/" ["x.svg"] "d").1).fs.entries p).isSome
        ↔ ∃ f ∈ ["x.svg"], p = pathJoin "d" f) ∧
    ∀ f ∈ ["x.svg"],
      lookupB ((fetchAll netAllOk ⟨[], []⟩ "u/" ["x.svg"] "d").1).fs.entries (pathJoin "d" f)
        = netAllOk ("u/" ++ f) :=
  claim_C2 netAllOk ⟨[], []⟩ "u/" ["x.svg"] "d"
    (fetchAll netAllOk ⟨[], []⟩ "u/" ["x.svg"] "d").1
    (by decide) rfl (by decide)

/-- C4: on a successful run the requested URLs are exactly
`base ++ f` for the manifest entries `f` in manifest order, and each body
is written to `dest/f`, overwriting any pre-existing file there (no
freshness assumption on the initial filesystem). -/
theorem claim_C4 (net : Network) (fs0 : FS) (base : String) (manifest : List String)
    (dest : String) (s : RunState)
    (hrun : fetchAll net fs0 base manifest dest = (s, none)) :
    s.requests = manifest.map (fun f => base ++ f) ∧
    ∀ f ∈ manifest, lookupB s.fs.entries (pathJoin dest f) = net (base ++ f) := by
  rcases hm : makedirs fs0 dest with ⟨fs1, e?⟩
  cases e? with
  | some e =>
    rw [fetchAll_of_mkdir_err net fs0 fs1 base manifest dest e hm] at hrun
    simp at hrun
  | none =>
    rw [fetchAll_of_mkdir_ok net fs0 fs1 base manifest dest hm] at hrun
    constructor
    · simpa using fetchList_requests_of_ok net base dest manifest ⟨fs1, []⟩ s hrun
    · intro f hf
      exact fetchList_lookup_of_ok net base dest manifest ⟨fs1, []⟩ s hrun f hf

/-- Witness for C4 at a concrete run: manifest `["a", "b"]`, an initial
filesystem already holding a file at `d/a`, which gets overwritten. -/
theorem claim_C4_witness :
    (fetchAll netAllOk ⟨[], [(pathJoin "d" "a", [9, 9])]⟩ "u/" ["a", "b"] "d").1.requests
      = ["a", "b"].map (fun f => "u/" ++ f) ∧
    ∀ f ∈ ["a", "b"],
      lookupB ((fetchAll netAllOk ⟨[], [(pathJoin "d" "a", [9, 9])]⟩ "u/" ["a", "b"] "d").1).fs.entries
        (pathJoin "d" f) = netAllOk ("u/" ++ f) :=
  claim_C4 netAllOk ⟨[], [(pathJoin "d" "a", [9, 9])]⟩ "u/" ["a", "b"] "d"
    (fetchAll netAllOk ⟨[], [(pathJoin "d" "a", [9, 9])]⟩ "u/" ["a", "b"] "d").1
    (by decide)

/-- C7: with an empty manifest the run still creates the destination
directory, issues zero requests, writes nothing, and reports success. -/
theorem claim_C7 (net : Network) (fs0 fs1 : FS) (base dest : String)
    (hdir : makedirs fs0 dest = (fs1, none)) :
    fetchAll net fs0 base [] dest = ({ fs := fs1, requests := [] }, none) ∧
    dest ∈ fs1.dirs := by
  refine ⟨?_, (makedirs_ok fs0 fs1 dest hdir).1⟩
  rw [fetchAll_of_mkdir_ok net fs0 fs1 base [] dest hdir]
  rfl

/-- Witness for C7 at a concrete empty-manifest run. -/
theorem claim_C7_witness :
    fetchAll netAllOk ⟨[], []⟩ "u/" [] "d" = ({ fs := ⟨["d"], []⟩, requests := [] }, none) ∧
    "d" ∈ (⟨["d"], []⟩ : FS).dirs :=
  claim_C7 netAllOk ⟨[], []⟩ ⟨["d"], []⟩ "u/" "d" (by decide)

/-- C3: the destination directory is created exactly once, before the
first fetch (on success it was absent and is now present), and whenever
directory creation fails the error is `DirectoryCreationError`, zero
network requests are issued and zero files are written. -/
theorem claim_C3 :
    (∀ (fs0 fs1 : FS) (dest : String), makedirs fs0 dest = (fs1, none) →
      dest ∈ fs1.dirs ∧ dest ∉ fs0.dirs) ∧
    ∀ (net : Network) (fs0 : FS) (base : String) (manifest : List String)
      (dest : String) (e : Err), (makedirs fs0 dest).2 = some e →
      e = Err.dirCreation ∧
      (fetchAll net fs0 base manifest dest).2 = some Err.dirCreation ∧
      ((fetchAll net fs0 base manifest dest).1).requests = [] ∧
      ((fetchAll net fs0 base manifest dest).1).fs.entries = fs0.entries := by
  constructor
  · intro fs0 fs1 dest h
    exact ⟨(makedirs_ok fs0 fs1 dest h).1, (makedirs_ok fs0 fs1 dest h).2.1⟩
  · intro net fs0 base manifest dest e h
    have he : e = Err.dirCreation := makedirs_err fs0 dest e h
    rcases hm : makedirs fs0 dest with ⟨fs1, e?⟩
    cases e? with
    | none => rw [hm] at h; simp at h
    | some e2 =>
      have he2 : e2 = e := by rw [hm] at h; simpa using h
      rw [he2] at hm
      rw [fetchAll_of_mkdir_err net fs0 fs1 base manifest dest e hm, he]
      have hent : fs1.entries = fs0.entries := by
        have h0 := makedirs_entries fs0 dest
        rw [hm] at h0
        exact h0
      exact ⟨rfl, rfl, rfl, hent⟩

/-- Witness for C3: a successful creation of `"d"` on an empty filesystem,
and a failing run whose destination `"f"` already exists as a plain file. -/
theorem claim_C3_witness :
    ("d" ∈ (⟨["d"], []⟩ : FS).dirs ∧ "d" ∉ (⟨[], []⟩ : FS).dirs) ∧
    (Err.dirCreation = Err.dirCreation ∧
     (fetchAll netAllOk ⟨[], [("f", [1])]⟩ "u/" ["a"] "f").2 = some Err.dirCreation ∧
     ((fetchAll netAllOk ⟨[], [("f", [1])]⟩ "u/" ["a"] "f").1).requests = [] ∧
     ((fetchAll netAllOk ⟨[], [("f", [1])]⟩ "u/" ["a"] "f").1).fs.entries
       = (⟨[], [("f", [1])]⟩ : FS).entries) :=
  ⟨claim_C3.1 ⟨[], []⟩ ⟨["d"], []⟩ "d" (by decide),
   claim_C3.2 netAllOk ⟨[], [("f", [1])]⟩ "u/" ["a"] "f" Err.dirCreation (by decide)⟩

/-- C5: a second run against the destination directory of a successful
run fails at the directory-creation step (fail-if-exists semantics): it
signals `DirectoryCreationError`, issues zero requests and writes nothing,
whatever network and manifest the second run uses. -/
theorem claim_C5 (net : Network) (fs0 : FS) (base : String) (manifest : List String)
    (dest : String) (s : RunState)
    (hrun : fetchAll net fs0 base manifest dest = (s, none)) :
    ∀ (net2 : Network) (manifest2 : List String),
      (fetchAll net2 s.fs base manifest2 dest).2 = some Err.dirCreation ∧
      ((fetchAll net2 s.fs base manifest2 dest).1).requests = [] ∧
      ((fetchAll net2 s.fs base manifest2 dest).1).fs.entries = s.fs.entries := by
  intro net2 manifest2
  rcases hm : makedirs fs0 dest with ⟨fs1, e?⟩
  cases e? with
  | some e =>
    rw [fetchAll_of_mkdir_err net fs0 fs1 base manifest dest e hm] at hrun
    simp at hrun
  | none =>
    rw [fetchAll_of_mkdir_ok net fs0 fs1 base manifest dest hm] at hrun
    have hdirs : s.fs.dirs = fs1.dirs := by
      have h0 := fetchList_dirs net base dest manifest ⟨fs1, []⟩
      rw [hrun] at h0
      exact h0
    have hmem : dest ∈ s.fs.dirs := by
      rw [hdirs]
      exact (makedirs_ok fs0 fs1 dest hm).1
    have hfail := makedirs_fails_of_dir s.fs dest hmem
    rcases hm2 : makedirs s.fs dest with ⟨fs2, e2?⟩
    have he2 : e2? = some Err.dirCreation := by rw [hm2] at hfail; exact hfail
    rw [fetchAll_of_mkdir_err net2 s.fs fs2 base manifest2 dest Err.dirCreation
      (by rw [hm2, he2])]
    refine ⟨rfl, rfl, ?_⟩
    have h0 := makedirs_entries s.fs dest
    rw [hm2] at h0
    exact h0

/-- Witness for C5: after a successful run for manifest `["a"]`, a second
run with a different network and manifest fails at directory creation. -/
theorem claim_C5_witness :
    (fetchAll netAllOk2 ((fetchAll netAllOk ⟨[], []⟩ "u/" ["a"] "d").1).fs "u/" ["z"] "d").2
      = some Err.dirCreation ∧
    ((fetchAll netAllOk2 ((fetchAll netAllOk ⟨[], []⟩ "u/" ["a"] "d").1).fs "u/" ["z"] "d").1).requests
      = [] ∧
    ((fetchAll netAllOk2 ((fetchAll netAllOk ⟨[], []⟩ "u/" ["a"] "d").1).fs "u/" ["z"] "d").1).fs.entries
      = ((fetchAll netAllOk ⟨[], []⟩ "u/" ["a"] "d").1).fs.entries :=
  claim_C5 netAllOk ⟨[], []⟩ "u/" ["a"] "d"
    (fetchAll netAllOk ⟨[], []⟩ "u/" ["a"] "d").1 (by decide) netAllOk2 ["z"]

/-- Counterexample to C6 as stated: the directory-creation primitive the
script uses (`os.makedirs`) is recursive.  On the two-component path
`"a/b"` over an empty filesystem it creates the missing parent `"a"` as
well, so it does not create only the final path component. -/
theorem claim_C6_cex :
    (makedirs ⟨[], []⟩ "a/b").1.dirs = ["a/b", "a"] ∧
    ("a" : String) ≠ "a/b" ∧
    (makedirs ⟨[], []⟩ "a/b").2 = none := by
  decide

/-- C6 (amended): `os.makedirs` is recursive in general, but on the
script's actual destination path `"imgs"`, which has a single component,
a successful creation adds exactly the directory `"imgs"` and nothing
else, touching no files. -/
theorem claim_C6 (fs fs1 : FS) (h : makedirs fs "imgs" = (fs1, none)) :
    fs1.dirs = "imgs" :: fs.dirs ∧ fs1.entries = fs.entries := by
  have hanc : properAncestors "imgs" = [] := by decide
  unfold makedirs at h
  rw [hanc] at h
  simp only [makedirsList] at h
  by_cases hex : fs.pathExists "imgs"
  · simp [mkdirStrict, hex] at h
  · simp only [mkdirStrict, hex, Bool.false_eq_true, if_false, Prod.mk.injEq] at h
    obtain ⟨h1, -⟩ := h
    exact ⟨by rw [← h1], by rw [← h1]⟩

/-- Witness for the amended C6 on the empty filesystem. -/
theorem claim_C6_witness :
    (⟨["imgs"], []⟩ : FS).dirs = "imgs" :: (⟨[], []⟩ : FS).dirs ∧
    (⟨["imgs"], []⟩ : FS).entries = (⟨[], []⟩ : FS).entries :=
  claim_C6 ⟨[], []⟩ ⟨["imgs"], []⟩ (by decide)

/-- Counterexample to C8 as stated: the hardcoded manifest has 30
filenames, not 31. -/
theorem claim_C8_cex : files.length = 30 ∧ files.length ≠ 31 := by decide

/-- C8 (amended): the 30 filenames of the hardcoded manifest are pairwise
distinct, their destination paths under `imgs` are pairwise distinct (so
no download overwrites the output of an earlier manifest entry), and a
successful run from a filesystem holding no files produces exactly 30
files. -/
theorem claim_C8 :
    files.Nodup ∧ files.length = 30 ∧
    (files.map (fun f => pathJoin "imgs" f)).Nodup ∧
    ∀ (net : Network) (fs0 : FS) (s : RunState), fs0.entries = [] →
      run net fs0 = (s, none) → s.fs.entries.length = 30 := by
  refine ⟨by decide, by decide, by decide, ?_⟩
  intro net fs0 s hfresh hrun
  unfold run at hrun
  rcases hm : makedirs fs0 "imgs" with ⟨fs1, e?⟩
  cases e? with
  | some e =>
    rw [fetchAll_of_mkdir_err net fs0 fs1 website files "imgs" e hm] at hrun
    simp at hrun
  | none =>
    rw [fetchAll_of_mkdir_ok net fs0 fs1 website files "imgs" hm] at hrun
    have hent : fs1.entries = [] := by
      rw [(makedirs_ok fs0 fs1 "imgs" hm).2.2, hfresh]
    have hlen := fetchList_length_of_ok net website "imgs" files ⟨fs1, []⟩ s
      (by intro f hf; simp [hent, lookupB]) (by decide) hrun
    rw [hlen]
    rw [show (⟨fs1, []⟩ : RunState).fs.entries = fs1.entries from rfl, hent]
    decide

/-- Witness for the amended C8: a fully successful concrete run leaves 30
files. -/
theorem claim_C8_witness :
    ((run netAllOk ⟨[], []⟩).1).fs.entries.length = 30 :=
  claim_C8.2.2.2 netAllOk ⟨[], []⟩ (run netAllOk ⟨[], []⟩).1 rfl (by decide)

/-- Network used by the C9 witness: only the first manifest entry's URL
succeeds, so the run aborts after writing one file. -/
def netOne : Network :=
  fun u => if u = website ++ "example-antelope.jpg" then some [7] else none

/-- C9: every filename of the hardcoded manifest is a bare name with no
path separator and no `".."` component, and every file a run writes (from
a filesystem holding no files) sits at `imgs/f` for such a manifest entry
`f` — flat inside the destination directory, with no escape. -/
theorem claim_C9 :
    (∀ f ∈ files, '/' ∉ f.data ∧ f ≠ "..") ∧
    ∀ (net : Network) (fs0 : FS) (p : String), fs0.entries = [] →
      (lookupB ((run net fs0).1).fs.entries p).isSome →
      ∃ f ∈ files, p = pathJoin "imgs" f ∧ '/' ∉ f.data ∧ f ≠ ".." := by
  have hflat : ∀ f ∈ files, '/' ∉ f.data ∧ f ≠ ".." := by decide
  refine ⟨hflat, ?_⟩
  intro net fs0 p hfresh hlook
  unfold run at hlook
  rcases hm : makedirs fs0 "imgs" with ⟨fs1, e?⟩
  cases e? with
  | some e =>
    rw [fetchAll_of_mkdir_err net fs0 fs1 website files "imgs" e hm] at hlook
    have hent : fs1.entries = [] := by
      have h0 := makedirs_entries fs0 "imgs"
      rw [hm] at h0
      rw [h0, hfresh]
    simp [hent, lookupB] at hlook
  | none =>
    rw [fetchAll_of_mkdir_ok net fs0 fs1 website files "imgs" hm] at hlook
    have hent : fs1.entries = [] := by
      rw [(makedirs_ok fs0 fs1 "imgs" hm).2.2, hfresh]
    rcases fetchList_keys_bounded net website "imgs" files ⟨fs1, []⟩ p hlook with h1 | h1
    · rw [show (⟨fs1, []⟩ : RunState).fs.entries = fs1.entries from rfl, hent] at h1
      simp [lookupB] at h1
    · obtain ⟨f, hf, hpf⟩ := h1
      exact ⟨f, hf, hpf, (hflat f hf).1, (hflat f hf).2⟩

/-- Witness for C9: in a concrete aborted run, the one file present sits
at `imgs/example-antelope.jpg` for the manifest entry
`"example-antelope.jpg"`. -/
theorem claim_C9_witness :
    ∃ f ∈ files, pathJoin "imgs" "example-antelope.jpg" = pathJoin "imgs" f ∧
      '/' ∉ f.data ∧ f ≠ ".." :=
  claim_C9.2 netOne ⟨[], []⟩ (pathJoin "imgs" "example-antelope.jpg") rfl (by decide)

/-- Counterexample to C10 as stated: the fixed sequence of target URLs has
30 elements, not 31. -/
theorem claim_C10_cex : targetUrls.length = 30 ∧ targetUrls.length ≠ 31 := by decide

/-- C10 (amended): the request behaviour is deterministic: the target URLs
are the fixed 30-element sequence `targetUrls` (website prefix
concatenated with the filenames in manifest order).  Every run requests a
prefix of that sequence whatever the network and prior filesystem state,
and any two successful runs request the identical full 30-URL sequence. -/
theorem claim_C10 :
    targetUrls.length = 30 ∧
    (∀ (net : Network) (fs0 : FS), ∃ t, ((run net fs0).1).requests ++ t = targetUrls) ∧
    ∀ (netA netB : Network) (fsA fsB : FS) (s1 s2 : RunState),
      run netA fsA = (s1, none) → run netB fsB = (s2, none) →
      s1.requests = s2.requests ∧ s1.requests = targetUrls := by
  have hsucc : ∀ (net : Network) (fs0 : FS) (s : RunState),
      run net fs0 = (s, none) → s.requests = targetUrls := by
    intro net fs0 s hrun
    unfold run at hrun
    rcases hm : makedirs fs0 "imgs" with ⟨fs1, e?⟩
    cases e? with
    | some e =>
      rw [fetchAll_of_mkdir_err net fs0 fs1 website files "imgs" e hm] at hrun
      simp at hrun
    | none =>
      rw [fetchAll_of_mkdir_ok net fs0 fs1 website files "imgs" hm] at hrun
      have h0 := fetchList_requests_of_ok net website "imgs" files ⟨fs1, []⟩ s hrun
      simpa [targetUrls] using h0
  refine ⟨by decide, ?_, ?_⟩
  · intro net fs0
    unfold run
    rcases hm : makedirs fs0 "imgs" with ⟨fs1, e?⟩
    cases e? with
    | some e =>
      rw [fetchAll_of_mkdir_err net fs0 fs1 website files "imgs" e hm]
      exact ⟨targetUrls, rfl⟩
    | none =>
      rw [fetchAll_of_mkdir_ok net fs0 fs1 website files "imgs" hm]
      obtain ⟨t, u, ht, hu⟩ := fetchList_requests_grow net website "imgs" files ⟨fs1, []⟩
      refine ⟨u, ?_⟩
      rw [ht]
      simpa [targetUrls] using hu
  · intro netA netB fsA fsB s1 s2 h1 h2
    have e1 := hsucc netA fsA s1 h1
    have e2 := hsucc netB fsB s2 h2
    exact ⟨by rw [e1, e2], e1⟩

/-- Witness for the amended C10: two concrete successful runs with
different networks and different prior filesystems issue the identical
request sequence `targetUrls`. -/
theorem claim_C10_witness :
    ((run netAllOk ⟨[], []⟩).1).requests = ((run netAllOk2 ⟨["other"], []⟩).1).requests ∧
    ((run netAllOk ⟨[], []⟩).1).requests = targetUrls :=
  claim_C10.2.2 netAllOk netAllOk2 ⟨[], []⟩ ⟨["other"], []⟩
    (run netAllOk ⟨[], []⟩).1 (run netAllOk2 ⟨["other"], []⟩).1
    (by decide) (by decide)
